import Mathlib

/-!
Verification of the scaling/parsing utilities of xpra
(`src/xpra/util/parsing.py`): `parse_scaling`, `parse_simple_dict`,
`parse_scaling_value`.

Modelling conventions:
* Python strings are modelled as `List Char` (top-level wrappers accept
  `String` and pass `String.data`); the separators used by this code are
  single characters, so `str.split`, `str.replace`, `str.find`,
  `str.endswith`, `str.startswith` are modelled on single characters.
* Python `int(...)` and `float(...)` string conversion is modelled for the
  sign-and-digits (and digits-dot-digits) forms these claims exercise;
  surrounding whitespace, underscores, exponents and `inf`/`nan` are not
  modelled.  Float values are modelled as exact rationals (`ℚ`): every
  numeric literal a claim compares against (`1`, `1.25`, `1.5`, `2`, `4`)
  is exactly representable in binary floating point, and the source's
  `5.0/3` (the one inexact table entry) is modelled as the exact `5/3`;
  no claim depends on its rounding.
* Python exceptions are modelled with `Except PyErr`; a `try/except`
  block is modelled by matching on the fallible operation and mapping the
  caught error to the handler's result.
* `parse_item` tracks whether its result is a Python `int` or a Python
  `float` (a `Bool` flag), because CPython's true division behaves
  differently for the two: `int / int` raises `OverflowError` when the
  quotient's magnitude reaches the float rounding-to-infinity threshold
  `2^1024 - 2^970` (values at or above the midpoint between the largest
  double `2^1024 - 2^971` and `2^1024` round, ties-to-even, to the
  overflowed `2^1024`), while `float / int` first converts the divisor,
  raising `OverflowError` when the divisor itself reaches that threshold,
  and then saturates to infinity without raising.  CPython's
  version-specific integer-string digit limit (default 4300 digits
  in Python 3.11+) is not modelled.
* Each call of the source to `log.warn` for one failure event is counted
  as one warning; functions return their warning count alongside their
  value (a multi-line warning block for a single event counts once).
-/

namespace XpraParsing

/-- Python exception kinds raised/caught by the modelled code. -/
inductive PyErr where
  | valueError : PyErr
  | zeroDivisionError : PyErr
  | assertionError : PyErr
  | indexError : PyErr
  | overflowError : PyErr
deriving DecidableEq

/-- Python `s.split(sep)` (no maxsplit) for a single-character separator:
splits at every occurrence, keeping empty pieces; `"".split(sep) = [""]`. -/
def pySplitc (sep : Char) : List Char → List (List Char)
  | [] => [[]]
  | c :: cs =>
    let r := pySplitc sep cs
    if c = sep then [] :: r
    else
      match r with
      | [] => [[c]]
      | h :: t => (c :: h) :: t

/-- Python `s.split(sep, 1)` for a single-character separator: splits at
the first occurrence only. -/
def pySplit1c (sep : Char) : List Char → List (List Char)
  | [] => [[]]
  | c :: cs =>
    if c = sep then [[], cs]
    else
      match pySplit1c sep cs with
      | [] => [[c]]
      | h :: t => (c :: h) :: t

/-- Python `s.replace(old, new)` for single-character arguments. -/
def pyReplace (old new : Char) (s : List Char) : List Char :=
  s.map (fun c => if c = old then new else c)

/-- Python `s.endswith(c)` for a single-character argument. -/
def pyEndsWith (c : Char) (s : List Char) : Bool :=
  match s.getLast? with
  | some d => d = c
  | none => false

/-- Index of the first occurrence of `c`, if any. -/
def pyFindAux (c : Char) : List Char → Option Nat
  | [] => none
  | d :: t => if d = c then some 0 else (pyFindAux c t).map (· + 1)

/-- Python `s.find(c)`: index of the first occurrence, `-1` if absent. -/
def pyFind (c : Char) (s : List Char) : Int :=
  match pyFindAux c s with
  | some i => (i : Int)
  | none => -1

/-- Python `s.startswith(p)`. -/
def lcStartsWith : List Char → List Char → Bool
  | _, [] => true
  | [], _ :: _ => false
  | c :: cs, p :: ps => c == p && lcStartsWith cs ps

/-- Decimal value of a digit character. -/
def digitVal (c : Char) : Nat := c.toNat - 48

/-- Accumulator for `digitsVal`. -/
def digitsValAux : List Char → Nat → Option Nat
  | [], acc => some acc
  | c :: cs, acc => if c.isDigit then digitsValAux cs (acc * 10 + digitVal c) else none

/-- Value of a nonempty all-digit string, `none` otherwise. -/
def digitsVal : List Char → Option Nat
  | [] => none
  | c :: cs => digitsValAux (c :: cs) 0

/-- Python `int(s)` for a string argument (sign and digits; see module
conventions), `none` when Python raises `ValueError`. -/
def pyInt (s : List Char) : Option Int :=
  match s with
  | [] => none
  | c :: rest =>
    if c = '-' then (digitsVal rest).map (fun n => -(n : Int))
    else if c = '+' then (digitsVal rest).map (fun n => (n : Int))
    else (digitsVal s).map (fun n => (n : Int))

/-- Numeric value of a digit list (0 when empty). -/
def digitsNum (l : List Char) : Nat :=
  l.foldl (fun a c => a * 10 + digitVal c) 0

/-- Unsigned part of Python `float(s)`: digits with an optional single
dot, at least one digit in total. -/
def mantissaVal (s : List Char) : Option ℚ :=
  let ip := s.takeWhile Char.isDigit
  let rest := s.dropWhile Char.isDigit
  match rest with
  | [] => if ip = [] then none else some ((digitsNum ip : Nat) : ℚ)
  | '.' :: rest2 =>
    let fp := rest2.takeWhile Char.isDigit
    let rest3 := rest2.dropWhile Char.isDigit
    if rest3 = [] then
      if ip = [] ∧ fp = [] then none
      else some (((digitsNum ip : Nat) : ℚ) + ((digitsNum fp : Nat) : ℚ) / (10 : ℚ) ^ fp.length)
    else none
  | _ => none

/-- Python `float(s)` for a string argument (see module conventions),
`none` when Python raises `ValueError`. -/
def pyFloat (s : List Char) : Option ℚ :=
  match s with
  | [] => none
  | c :: rest =>
    if c = '-' then (mantissaVal rest).map Neg.neg
    else if c = '+' then mantissaVal rest
    else mantissaVal s

/-- Modelled from the spec: the truthy-token set `TRUE_OPTIONS` is
imported from `xpra.scripts.config`, which is not part of this excerpt;
the spec (section 4.1 step 1) gives the tokens `"yes"`, `"true"`, `"1"`,
`"on"` as the fixed set of strings meaning boolean true. -/
def TRUE_OPTIONS : List (List Char) :=
  ["yes".data, "true".data, "1".data, "on".data]

/-- One row of the auto-scaling limit table:
`(max_width, max_height, scale_x, scale_y)`. -/
structure ScalingLimit where
  max_w : Int
  max_h : Int
  scale_x : ℚ
  scale_y : ℚ
deriving DecidableEq

/-- The default auto-mode limit table of `parse_scaling`
(`parsing.py` lines 39-46); `5.0/3` is modelled as the exact `5/3`. -/
def defaultLimits : List ScalingLimit :=
  [⟨3960, 2160, 1, 1⟩,
   ⟨7680, 4320, 5/4, 5/4⟩,
   ⟨8192, 8192, 3/2, 3/2⟩,
   ⟨16384, 16384, 5/3, 5/3⟩,
   ⟨32768, 32768, 2, 2⟩,
   ⟨65536, 65536, 4, 4⟩]

/-- One `WIDTHxHEIGHT:SCALEX[*SCALEY]` entry of an `"auto:"` limit string
(`parsing.py` lines 51-70): the body of the `try` block; any assertion
failure or `int`/`float` conversion error is caught by the
`except Exception` handler, which skips the entry (modelled as `none`). -/
def parseLimitEntry (l : List Char) : Option ScalingLimit :=
  match pySplitc ':' l with
  | [d, sstr] =>
    match pySplitc 'x' d with
    | [xs, ys] =>
      match pyInt xs, pyInt ys with
      | some x, some y =>
        match pySplitc 'x' (pyReplace '/' 'x' (pyReplace '*' 'x' sstr)) with
        | [sp] => (pyFloat sp).map (fun s => ⟨x, y, s, s⟩)
        | [sp1, sp2] =>
          match pyFloat sp1, pyFloat sp2 with
          | some s1, some s2 => some ⟨x, y, s1, s2⟩
          | _, _ => none
        | _ => none
      | _, _ => none
    | _ => none
  | _ => none

/-- The `for l in limp` loop of the `"auto:"` branch: parsed entries are
appended in order, each failed entry logs a warning and is skipped. -/
def parseLimits : List (List Char) → List ScalingLimit × Nat
  | [] => ([], 0)
  | l :: rest =>
    let (ls, w) := parseLimits rest
    match parseLimitEntry l with
    | some lim => (lim :: ls, w)
    | none => (ls, w + 1)

/-- `"auto".data`. -/
def autoL : List Char := "auto".data

/-- `"auto:".data`. -/
def autoColonL : List Char := "auto:".data

/-- The limit table used by the auto branch of `parse_scaling`
(`parsing.py` lines 39-72): the parsed table after `"auto:"`, otherwise
the default table, with a warning when the spec is neither `"auto"` nor
an `"auto:"` prefix. -/
def autoLimitsL (s : List Char) : List ScalingLimit × Nat :=
  if lcStartsWith s autoColonL then parseLimits (pySplitc ',' (s.drop 5))
  else if s = autoL then (defaultLimits, 0)
  else (defaultLimits, 1)

/-- The `for mx, my, tsx, tsy in limits` selection loop of
`parse_scaling` (`parsing.py` lines 73-79): first row whose area bound
covers `root_w*root_h` wins; `(1, 1)` when none does. -/
def selectLimits : List ScalingLimit → Int → Int → ℚ × ℚ
  | [], _, _ => (1, 1)
  | lim :: rest, rw, rh =>
    if rw * rh ≤ lim.max_w * lim.max_h then (lim.scale_x, lim.scale_y)
    else selectLimits rest rw rh

/-- The ratio fallback of `parse_item` (`parsing.py` lines 99-106):
`pair = v.replace(":", "/").split("/", 1)`, then
`float(pair[0])/float(pair[1])` inside a `try` catching `ValueError` and
`ZeroDivisionError`; a caught error falls through to the warning and the
`return 0` — the Python INT zero, hence the `true` flag.  A ratio
success is a float (`false`).  The `IndexError` of `pair[1]` on a
one-element `pair` is NOT caught (reachable only if `float(pair[0])`
succeeded there) and is modelled faithfully as an error. -/
def parse_item_ratio (v : List Char) : Except PyErr (ℚ × Bool × Nat) :=
  match pyFloat ((pySplit1c '/' (pyReplace ':' '/' v)).headD []) with
  | none => .ok (0, true, 1)
  | some a =>
    match (pySplit1c '/' (pyReplace ':' '/' v))[1]? with
    | none => .error .indexError
    | some p2 =>
      match pyFloat p2 with
      | none => .ok (0, true, 1)
      | some b => if b = 0 then .ok (0, true, 1) else .ok (a / b, false, 0)

/-- The numeric attempts of `parse_item` (`parsing.py` lines 90-98):
the `int` attempt (already `none` when a `%` was stripped, since then
`div != 1`) yields a Python int (`true` flag), then `float(v)/div` and
the ratio fallback yield floats (`false`). -/
def parse_item_num (v : List Char) (div : ℚ) (ival : Option Int) :
    Except PyErr (ℚ × Bool × Nat) :=
  match ival with
  | some n => .ok ((n : ℚ), true, 0)
  | none =>
    match pyFloat v with
    | some f => .ok (f / div, false, 0)
    | none => parse_item_ratio v

/-- The inner `parse_item` of `parse_scaling` (`parsing.py` lines
82-106): strip a trailing `%` (divisor 100, skipping the `int` attempt
because `div != 1`), try `int`, try `float`, try an `A:B` / `A/B`
ratio, else warn and return 0.  The result carries whether the value is
a Python int (see module conventions). -/
def parse_item (v0 : List Char) : Except PyErr (ℚ × Bool × Nat) :=
  if pyEndsWith '%' v0 then parse_item_num v0.dropLast 100 none
  else parse_item_num v0 1 (pyInt v0)

/-- CPython's float overflow threshold: a true result with magnitude at
least `2^1024 - 2^970` (the ties-to-even midpoint between the largest
double `2^1024 - 2^971` and `2^1024`) rounds to the overflowed `2^1024`,
and CPython raises `OverflowError`. -/
def ovfl : ℚ := 2 ^ 1024 - 2 ^ 970

/-- Python's true division of a parsed scale value by a root dimension
(`sx /= root_w`, `parsing.py` lines 127-128): `ZeroDivisionError` for a
zero divisor; for an int dividend (`xInt = true`), `int.__truediv__`
raises `OverflowError` when the quotient's magnitude reaches `ovfl`;
for a float dividend the divisor is converted to float first, raising
`OverflowError` when `|d|` itself reaches `ovfl` (the float/float
division afterwards saturates to infinity without raising).  The
quotient is modelled exactly (see module conventions). -/
def pyDivNum (x : ℚ) (xInt : Bool) (d : Int) : Except PyErr ℚ :=
  if d = 0 then .error .zeroDivisionError
  else if xInt then
    if ovfl ≤ |x / (d : ℚ)| then .error .overflowError else .ok (x / (d : ℚ))
  else
    if ovfl ≤ |(d : ℚ)| then .error .overflowError else .ok (x / (d : ℚ))

/-- The final range check of `parse_scaling` (`parsing.py` lines
129-133): out-of-range values warn and collapse to `(1, 1)`. -/
def clampCheck (sx sy : ℚ) (w : Nat) (m M : ℚ) : (ℚ × ℚ) × Nat :=
  if sx < m ∨ sy < m ∨ sx > M ∨ sy > M then ((1, 1), w + 1) else ((sx, sy), w)

/-- Normalization and range check of `parse_scaling` (`parsing.py` lines
125-133): values above `max_scaling` are treated as absolute pixel sizes
and divided by the root dimensions — `sx /= root_w` first, then
`sy /= root_h`, each raising `ZeroDivisionError` or `OverflowError` as
`pyDivNum` describes — then range-checked. -/
def finishScaling (sx sy : ℚ) (xi yi : Bool) (w : Nat) (rw rh : Int) (m M : ℚ) :
    Except PyErr ((ℚ × ℚ) × Nat) :=
  if sx > M ∨ sy > M then
    match pyDivNum sx xi rw with
    | .error e => .error e
    | .ok sx' =>
      match pyDivNum sy yi rh with
      | .error e => .error e
      | .ok sy' => .ok (clampCheck sx' sy' w m M)
  else .ok (clampCheck sx sy w m M)

/-- The fixed-value branch of `parse_scaling` (`parsing.py` lines
107-133): conflicting `x`/`:` separators warn and return `(1, 1)`;
otherwise split into one or two components, parse them with
`parse_item`, and normalize.  The source's `if sy is None` check is
dead code (`parse_item` never returns `None`), so it contributes
nothing here. -/
def parse_scaling_fixed (s : List Char) (rw rh : Int) (m M : ℚ) :
    Except PyErr ((ℚ × ℚ) × Nat) :=
  if 0 < pyFind 'x' s ∧ 0 < pyFind ':' s then .ok ((1, 1), 1)
  else
    match parse_item ((pySplit1c 'x' (pyReplace ',' 'x' s)).headD []) with
    | .error e => .error e
    | .ok (sx, xi, w1) =>
      if sx = 0 then .ok ((1, 1), w1)
      else
        match (pySplit1c 'x' (pyReplace ',' 'x' s))[1]? with
        | none => finishScaling sx sx xi xi w1 rw rh m M
        | some v2 =>
          match parse_item v2 with
          | .error e => .error e
          | .ok (sy, yi, w2) => finishScaling sx sy xi yi (w1 + w2) rw rh m M

/-- `parse_scaling` on a character list (`parsing.py` lines 32-133). -/
def parse_scalingL (s : List Char) (rw rh : Int) (m M : ℚ) :
    Except PyErr ((ℚ × ℚ) × Nat) :=
  if s ∈ TRUE_OPTIONS then .ok ((1, 1), 0)
  else if lcStartsWith s autoL then
    .ok (selectLimits (autoLimitsL s).1 rw rh, (autoLimitsL s).2)
  else parse_scaling_fixed s rw rh m M

/-- `parse_scaling(desktop_scaling, root_w, root_h, min_scaling,
max_scaling)` of `parsing.py`; result in an `Except` (Python exceptions)
carrying the scale pair and the warning count. -/
def parse_scaling (spec : String) (rw rh : Int) (m M : ℚ) :
    Except PyErr ((ℚ × ℚ) × Nat) :=
  parse_scalingL spec.data rw rh m M

/-- A value of `parse_simple_dict`: a single string or a list of
strings (Python `str | list[str]`). -/
inductive DVal where
  | str : List Char → DVal
  | list : List (List Char) → DVal
deriving DecidableEq

/-- Python `d.get(k)` on the ordered mapping model. -/
def dictGet (d : List (List Char × DVal)) (k : List Char) : Option DVal :=
  match d with
  | [] => none
  | (k', v) :: rest => if k' = k then some v else dictGet rest k

/-- Python `d[k] = v`: replaces in place (keeping the key's position)
or appends a new key. -/
def dictSet (d : List (List Char × DVal)) (k : List Char) (v : DVal) :
    List (List Char × DVal) :=
  match d with
  | [] => [(k, v)]
  | (k', v') :: rest => if k' = k then (k', v) :: rest else (k', v') :: dictSet rest k v

/-- The inner `may_add` of `parse_simple_dict` (`parsing.py` lines
144-151): first value stays scalar, a repeat promotes to a list, later
repeats append. -/
def may_add (cur : Option DVal) (v : List Char) : DVal :=
  match cur with
  | none => .str v
  | some (.str s) => .list [s, v]
  | some (.list l) => .list (l ++ [v])

/-- One entry of the `parse_simple_dict` loop (`parsing.py` lines
139-156): empty entries are skipped silently; `k, v = el.split("=", 1)`
raises unless the split yields exactly two parts, and the
`except Exception` handler turns that into a warning and skips the
entry. -/
def parse_simple_dictEntry (d : List (List Char × DVal) × Nat) (el : List Char) :
    List (List Char × DVal) × Nat :=
  if el = [] then d
  else
    match pySplit1c '=' el with
    | [k, v] => (dictSet d.1 k (may_add (dictGet d.1 k) v), d.2)
    | _ => (d.1, d.2 + 1)

/-- `parse_simple_dict` on a character list. -/
def parse_simple_dictL (s : List Char) (sep : Char) :
    List (List Char × DVal) × Nat :=
  (pySplitc sep s).foldl parse_simple_dictEntry ([], 0)

/-- `parse_simple_dict(s, sep)` of `parsing.py` (lines 136-157); the
mapping is modelled as an insertion-ordered association list, with the
warning count alongside. -/
def parse_simple_dict (s : String) (sep : Char) :
    List (List Char × DVal) × Nat :=
  parse_simple_dictL s.data sep

/-- Python's list comprehension `[int(x) for x in values]`: `none` when
some `int(...)` raises `ValueError`. -/
def listPyInt : List (List Char) → Option (List Int)
  | [] => some []
  | x :: xs =>
    match pyInt x with
    | none => none
    | some n => (listPyInt xs).map (n :: ·)

/-- `parse_scaling_value` on a character list (`parsing.py` lines
160-174).  The `%` branch computes `float(v[:1]).as_integer_ratio()` —
the float of the FIRST CHARACTER only; `as_integer_ratio` of the exact
rational model is its numerator/denominator pair.  The assertions on
positivity and on `values[0] <= values[1]` raise `AssertionError`. -/
def parse_scaling_valueL (v : List Char) : Except PyErr (Option (Int × Int)) :=
  if v = [] then .ok none
  else if pyEndsWith '%' v then
    match pyFloat (v.take 1) with
    | some q => .ok (some (q.num, (q.den : Int)))
    | none => .error .valueError
  else
    match listPyInt (pySplit1c ':' (pyReplace ',' ':' (pyReplace '/' ':' v))) with
    | none => .error .valueError
    | some ints =>
      if ints.any (fun x => decide (x ≤ 0)) then .error .assertionError
      else
        match ints with
        | [n] => .ok (some (1, n))
        | a :: b :: _ => if a ≤ b then .ok (some (a, b)) else .error .assertionError
        | [] => .error .valueError

/-- `parse_scaling_value(v)` of `parsing.py`. -/
def parse_scaling_value (v : String) : Except PyErr (Option (Int × Int)) :=
  parse_scaling_valueL v.data

/-! ### Structural lemmas about the string model -/

theorem pySplit1c_ne_nil (sep : Char) (s : List Char) : pySplit1c sep s ≠ [] := by
  cases s with
  | nil => simp [pySplit1c]
  | cons c cs =>
    unfold pySplit1c
    by_cases h : c = sep
    · simp [h]
    · rw [if_neg h]
      cases pySplit1c sep cs <;> simp

theorem pySplit1c_shape (sep : Char) (s : List Char) :
    (∃ a, pySplit1c sep s = [a]) ∨ ∃ a b, pySplit1c sep s = [a, b] := by
  induction s with
  | nil => exact .inl ⟨[], rfl⟩
  | cons c cs ih =>
    unfold pySplit1c
    by_cases h : c = sep
    · exact .inr ⟨[], cs, by rw [if_pos h]⟩
    · rcases ih with ⟨a, ha⟩ | ⟨a, b, hab⟩
      · exact .inl ⟨c :: a, by rw [if_neg h, ha]⟩
      · exact .inr ⟨c :: a, b, by rw [if_neg h, hab]⟩

theorem pySplit1c_eq_single (sep : Char) (s a : List Char)
    (h : pySplit1c sep s = [a]) : a = s ∧ sep ∉ s := by
  induction s generalizing a with
  | nil =>
    simp only [pySplit1c] at h
    have : a = [] := by simpa using h.symm
    simp [this]
  | cons c cs ih =>
    unfold pySplit1c at h
    by_cases hc : c = sep
    · rw [if_pos hc] at h; simp at h
    · rw [if_neg hc] at h
      cases hr : pySplit1c sep cs with
      | nil => exact absurd hr (pySplit1c_ne_nil sep cs)
      | cons h0 t =>
        rw [hr] at h
        cases t with
        | cons _ _ => simp at h
        | nil =>
          have ha : a = c :: h0 := by simpa using h.symm
          obtain ⟨rfl, hnm⟩ := ih h0 hr
          refine ⟨ha, ?_⟩
          simp only [List.mem_cons]
          rintro (rfl | hmem)
          · exact hc rfl
          · exact hnm hmem

theorem pySplit1c_cons_of_ne (sep c : Char) (cs : List Char) (h : c ≠ sep) :
    ∃ h0 t0, pySplit1c sep cs = h0 :: t0 ∧
      pySplit1c sep (c :: cs) = (c :: h0) :: t0 := by
  cases hr : pySplit1c sep cs with
  | nil => exact absurd hr (pySplit1c_ne_nil sep cs)
  | cons h0 t0 =>
    refine ⟨h0, t0, rfl, ?_⟩
    unfold pySplit1c
    rw [if_neg h, hr]

theorem pySplit1c_not_mem (sep : Char) (s : List Char) (h : sep ∉ s) :
    pySplit1c sep s = [s] := by
  induction s with
  | nil => rfl
  | cons c cs ih =>
    simp only [List.mem_cons] at h
    push_neg at h
    unfold pySplit1c
    rw [if_neg (fun he => h.1 he.symm), ih h.2]

theorem pySplit1c_first (sep : Char) (k v : List Char) (h : sep ∉ k) :
    pySplit1c sep (k ++ sep :: v) = [k, v] := by
  induction k with
  | nil =>
    simp only [List.nil_append]
    unfold pySplit1c
    rw [if_pos rfl]
  | cons c cs ih =>
    simp only [List.mem_cons] at h
    push_neg at h
    simp only [List.cons_append]
    unfold pySplit1c
    rw [if_neg (fun he => h.1 he.symm), ih h.2]

theorem pySplitc_not_mem (sep : Char) (s : List Char) (h : sep ∉ s) :
    pySplitc sep s = [s] := by
  induction s with
  | nil => rfl
  | cons c cs ih =>
    simp only [List.mem_cons] at h
    push_neg at h
    unfold pySplitc
    rw [if_neg (fun he => h.1 he.symm), ih h.2]

theorem pyReplace_eq_self (old new : Char) (s : List Char)
    (h : new ∉ pyReplace old new s) : pyReplace old new s = s := by
  induction s with
  | nil => rfl
  | cons c cs ih =>
    simp only [pyReplace, List.map, List.mem_cons] at h ⊢
    push_neg at h
    by_cases hc : c = old
    · exact absurd (by rw [if_pos hc]) h.1
    · rw [if_neg hc]
      exact congrArg (c :: ·) (ih h.2)

theorem pyReplace_not_mem (old new : Char) (s : List Char) (h : old ∉ s) :
    pyReplace old new s = s := by
  induction s with
  | nil => rfl
  | cons c cs ih =>
    simp only [List.mem_cons] at h
    push_neg at h
    simp only [pyReplace, List.map]
    rw [if_neg (fun he => h.1 he.symm)]
    exact congrArg (c :: ·) (ih h.2)

theorem pyEndsWith_false_of_not_mem (c : Char) (s : List Char) (h : c ∉ s) :
    pyEndsWith c s = false := by
  induction s with
  | nil => rfl
  | cons d t ih =>
    simp only [List.mem_cons] at h
    push_neg at h
    cases t with
    | nil => exact decide_eq_false (fun he => h.1 he.symm)
    | cons e t' =>
      have hstep : pyEndsWith c (d :: e :: t') = pyEndsWith c (e :: t') := by
        unfold pyEndsWith
        rw [List.getLast?_cons_cons]
      rw [hstep]
      exact ih h.2

theorem pyFindAux_not_mem (c : Char) (s : List Char) (h : c ∉ s) :
    pyFindAux c s = none := by
  induction s with
  | nil => rfl
  | cons d t ih =>
    simp only [List.mem_cons] at h
    push_neg at h
    unfold pyFindAux
    rw [if_neg (fun he => h.1 he.symm), ih h.2]
    rfl

theorem pyFindAux_of_mem (c : Char) (s : List Char) (h : c ∈ s) :
    ∃ i, pyFindAux c s = some i := by
  induction s with
  | nil => simp at h
  | cons d t ih =>
    unfold pyFindAux
    by_cases hd : d = c
    · exact ⟨0, by rw [if_pos hd]⟩
    · have hm : c ∈ t := by
        rcases List.mem_cons.mp h with h1 | h1
        · exact absurd h1.symm hd
        · exact h1
      obtain ⟨i, hi⟩ := ih hm
      exact ⟨i + 1, by rw [if_neg hd, hi]; rfl⟩

theorem pyFindAux_zero (c : Char) (s : List Char) (h : pyFindAux c s = some 0) :
    ∃ t, s = c :: t := by
  cases s with
  | nil => simp [pyFindAux] at h
  | cons d t =>
    unfold pyFindAux at h
    by_cases hd : d = c
    · exact ⟨t, by rw [hd]⟩
    · rw [if_neg hd] at h
      cases hfa : pyFindAux c t with
      | none => rw [hfa] at h; simp at h
      | some j => rw [hfa] at h; simp at h

theorem pyFind_head (c : Char) (s : List Char) (hmem : c ∈ s)
    (hnp : ¬0 < pyFind c s) : ∃ t, s = c :: t := by
  obtain ⟨i, hi⟩ := pyFindAux_of_mem c s hmem
  have hf : pyFind c s = (i : Int) := by simp [pyFind, hi]
  rw [hf] at hnp
  have : i = 0 := by omega
  exact pyFindAux_zero c s (this ▸ hi)

theorem digitsValAux_zeros (k : Nat) (acc : Nat) :
    digitsValAux (List.replicate k '0') acc = some (acc * 10 ^ k) := by
  induction k generalizing acc with
  | zero => simp [digitsValAux]
  | succ k ih =>
    rw [List.replicate_succ]
    show digitsValAux ('0' :: List.replicate k '0') acc = some (acc * 10 ^ (k + 1))
    unfold digitsValAux
    rw [if_pos (by decide), ih]
    congr 1
    show (acc * 10 + digitVal '0') * 10 ^ k = acc * 10 ^ (k + 1)
    have h0 : digitVal '0' = 0 := by decide
    rw [h0, pow_succ]
    ring

/-! ### Lemmas about `parse_item` -/

theorem parse_item_ratio_cases (v : List Char) (hv : pyFloat v = none) :
    parse_item_ratio v = .ok (0, true, 1) ∨
      ∃ q, parse_item_ratio v = .ok (q, false, 0) := by
  unfold parse_item_ratio
  cases hf : pyFloat ((pySplit1c '/' (pyReplace ':' '/' v)).headD []) with
  | none => exact .inl rfl
  | some a =>
    cases hp : (pySplit1c '/' (pyReplace ':' '/' v))[1]? with
    | none =>
      exfalso
      rcases pySplit1c_shape '/' (pyReplace ':' '/' v) with ⟨a0, ha0⟩ | ⟨a0, b0, hab⟩
      · obtain ⟨rfl, hnm⟩ := pySplit1c_eq_single _ _ _ ha0
        have hid : pyReplace ':' '/' v = v := pyReplace_eq_self _ _ _ hnm
        rw [ha0] at hf
        simp only [List.headD, hid] at hf
        rw [hv] at hf
        exact Option.noConfusion hf
      · rw [hab] at hp
        simp at hp
    | some p2 =>
      cases hq : pyFloat p2 with
      | none => exact .inl (by simp [hq])
      | some b =>
        by_cases hb : b = 0
        · exact .inl (by simp [hq, hb])
        · exact .inr ⟨a / b, by simp [hq, hb]⟩

theorem parse_item_num_cases (v : List Char) (div : ℚ) (ival : Option Int) :
    parse_item_num v div ival = .ok (0, true, 1) ∨
      ∃ q xi, parse_item_num v div ival = .ok (q, xi, 0) := by
  unfold parse_item_num
  cases ival with
  | some n => exact .inr ⟨(n : ℚ), true, rfl⟩
  | none =>
    cases hf : pyFloat v with
    | some f => exact .inr ⟨f / div, false, rfl⟩
    | none =>
      rcases parse_item_ratio_cases v hf with h | ⟨q, h⟩
      · exact .inl h
      · exact .inr ⟨q, false, h⟩

theorem parse_item_cases (v0 : List Char) :
    parse_item v0 = .ok (0, true, 1) ∨
      ∃ q xi, parse_item v0 = .ok (q, xi, 0) := by
  unfold parse_item
  by_cases h : pyEndsWith '%' v0 = true
  · rw [if_pos h]; exact parse_item_num_cases _ _ _
  · rw [if_neg h]; exact parse_item_num_cases _ _ _

theorem parse_item_num_colon (t : List Char) (div : ℚ) :
    parse_item_num (':' :: t) div none = .ok (0, true, 1) := rfl

theorem parse_item_head_colon (v0 : List Char) (h : v0.head? = some ':') :
    parse_item v0 = .ok (0, true, 1) := by
  cases v0 with
  | nil => simp at h
  | cons c t =>
    have hc : c = ':' := by simpa using h
    subst hc
    unfold parse_item
    by_cases hs : pyEndsWith '%' (':' :: t) = true
    · rw [if_pos hs]
      cases t with
      | nil => simp [pyEndsWith] at hs
      | cons x xs => exact parse_item_num_colon _ _
    · rw [if_neg hs]
      exact parse_item_num_colon t 1

/-! ### Lemmas about the range normalization and the auto table -/

theorem clampCheck_zero_sy (sx : ℚ) (w : Nat) (m M : ℚ) (hm : 0 < m) :
    clampCheck sx 0 w m M = ((1, 1), w + 1) := by
  unfold clampCheck
  rw [if_pos (Or.inr (Or.inl hm))]

theorem ovfl_pos : (0 : ℚ) < ovfl := by norm_num [ovfl]

theorem pyDivNum_cases (x : ℚ) (xInt : Bool) (d : Int) (hd : d ≠ 0) :
    (∃ q, pyDivNum x xInt d = .ok q) ∨ pyDivNum x xInt d = .error .overflowError := by
  unfold pyDivNum
  rw [if_neg hd]
  cases xInt with
  | true =>
    by_cases h : ovfl ≤ |x / (d : ℚ)|
    · exact .inr (by rw [if_pos rfl, if_pos h])
    · exact .inl ⟨x / (d : ℚ), by rw [if_pos rfl, if_neg h]⟩
  | false =>
    by_cases h : ovfl ≤ |(d : ℚ)|
    · exact .inr (by rw [if_neg (by simp), if_pos h])
    · exact .inl ⟨x / (d : ℚ), by rw [if_neg (by simp), if_neg h]⟩

theorem pyDivNum_zero_int (d : Int) (hd : d ≠ 0) : pyDivNum 0 true d = .ok 0 := by
  have hc : ¬ovfl ≤ |(0 : ℚ) / (d : ℚ)| := by
    rw [zero_div, abs_zero]
    exact not_le.mpr ovfl_pos
  unfold pyDivNum
  rw [if_neg hd, if_pos rfl, if_neg hc, zero_div]

theorem finishScaling_cases (sx sy : ℚ) (xi yi : Bool) (w : Nat) (rw rh : Int)
    (m M : ℚ) (hw : rw ≠ 0) (hh : rh ≠ 0) :
    (finishScaling sx sy xi yi w rw rh m M).isOk ∨
      finishScaling sx sy xi yi w rw rh m M = .error .overflowError := by
  unfold finishScaling
  by_cases h : sx > M ∨ sy > M
  · rcases pyDivNum_cases sx xi rw hw with ⟨q1, h1⟩ | h1
    · rcases pyDivNum_cases sy yi rh hh with ⟨q2, h2⟩ | h2
      · exact .inl (by rw [if_pos h, h1, h2]; rfl)
      · exact .inr (by rw [if_pos h, h1, h2])
    · exact .inr (by rw [if_pos h, h1])
  · exact .inl (by rw [if_neg h]; rfl)

theorem finishScaling_zero_sy (sx : ℚ) (xi : Bool) (w : Nat) (rw rh : Int)
    (m M : ℚ) (hm : 0 < m) (hw : rw ≠ 0) (hh : rh ≠ 0) :
    finishScaling sx 0 xi true w rw rh m M = .ok ((1, 1), w + 1) ∨
      finishScaling sx 0 xi true w rw rh m M = .error .overflowError := by
  unfold finishScaling
  by_cases h : sx > M ∨ (0 : ℚ) > M
  · rcases pyDivNum_cases sx xi rw hw with ⟨q1, h1⟩ | h1
    · refine .inl ?_
      rw [if_pos h, h1, pyDivNum_zero_int rh hh]
      show Except.ok (clampCheck q1 0 w m M) = Except.ok ((1, 1), w + 1)
      rw [clampCheck_zero_sy q1 w m M hm]
    · exact .inr (by rw [if_pos h, h1])
  · exact .inl (by rw [if_neg h, clampCheck_zero_sy sx w m M hm])

theorem selectLimits_eq_find (ls : List ScalingLimit) (rw rh : Int) :
    selectLimits ls rw rh =
      match ls.find? (fun l => decide (rw * rh ≤ l.max_w * l.max_h)) with
      | some l => (l.scale_x, l.scale_y)
      | none => (1, 1) := by
  induction ls with
  | nil => rfl
  | cons lim rest ih =>
    by_cases h : rw * rh ≤ lim.max_w * lim.max_h
    · simp [selectLimits, List.find?, h]
    · simp [selectLimits, List.find?, h, ih]

theorem not_mem_TRUE_OPTIONS_of_auto (s : List Char)
    (h : lcStartsWith s autoL = true) : s ∉ TRUE_OPTIONS := by
  intro hmem
  simp only [TRUE_OPTIONS, List.mem_cons, List.mem_singleton, List.not_mem_nil] at hmem
  rcases hmem with rfl | rfl | rfl | rfl | hmem
  · exact absurd h (by decide)
  · exact absurd h (by decide)
  · exact absurd h (by decide)
  · exact absurd h (by decide)
  · simp at hmem

theorem parse_scalingL_fixed_branch (s : List Char) (rw rh : Int) (m M : ℚ)
    (h1 : s ∉ TRUE_OPTIONS) (h2 : lcStartsWith s autoL = false) :
    parse_scalingL s rw rh m M = parse_scaling_fixed s rw rh m M := by
  unfold parse_scalingL
  rw [if_neg h1, if_neg (by simp [h2])]

/-- Spec-side reformulation used by claim C3: the scales of the FIRST
row, in table order (via `List.find?`), whose
`max_width*max_height >= root_w*root_h`; `(1.0, 1.0)` when no row
matches. -/
def firstLimitMatch (ls : List ScalingLimit) (rw rh : Int) : ℚ × ℚ :=
  match ls.find? (fun l => decide (rw * rh ≤ l.max_w * l.max_h)) with
  | some l => (l.scale_x, l.scale_y)
  | none => (1, 1)

theorem selectLimits_eq_firstMatch (ls : List ScalingLimit) (rw rh : Int) :
    selectLimits ls rw rh = firstLimitMatch ls rw rh := by
  induction ls with
  | nil => rfl
  | cons lim rest ih =>
    by_cases h : rw * rh ≤ lim.max_w * lim.max_h
    · simp [selectLimits, firstLimitMatch, List.find?, h]
    · simp only [selectLimits, firstLimitMatch, List.find?] at ih ⊢
      rw [if_neg h, decide_eq_false h]
      exact ih

/-! ### Lemmas about the fixed-value branch of `parse_scaling` -/

theorem parse_scaling_fixed_ok_or_overflow (s : List Char) (rw rh : Int) (m M : ℚ)
    (hw : rw ≠ 0) (hh : rh ≠ 0) :
    (parse_scaling_fixed s rw rh m M).isOk ∨
      parse_scaling_fixed s rw rh m M = .error .overflowError := by
  unfold parse_scaling_fixed
  by_cases hcond : 0 < pyFind 'x' s ∧ 0 < pyFind ':' s
  · rw [if_pos hcond]; exact .inl rfl
  · rw [if_neg hcond]
    rcases parse_item_cases ((pySplit1c 'x' (pyReplace ',' 'x' s)).headD [])
      with h | ⟨q, xi, h⟩
    · rw [h]; exact .inl rfl
    · by_cases hq : q = 0
      · rw [h, hq]; exact .inl rfl
      · simp only [h, if_neg hq]
        cases hv : (pySplit1c 'x' (pyReplace ',' 'x' s))[1]? with
        | none => exact finishScaling_cases q q xi xi 0 rw rh m M hw hh
        | some v2 =>
          rcases parse_item_cases v2 with h2 | ⟨q2, yi2, h2⟩
          · simp only [h2]
            exact finishScaling_cases q 0 xi true (0 + 1) rw rh m M hw hh
          · simp only [h2]
            exact finishScaling_cases q q2 xi yi2 (0 + 0) rw rh m M hw hh

theorem parse_scaling_fixed_fallback (s : List Char) (rw rh : Int) (m M : ℚ)
    (hm : 0 < m) (hw : rw ≠ 0) (hh : rh ≠ 0)
    (hfail : ∃ c ∈ pySplit1c 'x' (pyReplace ',' 'x' s),
      ∃ n, parse_item c = .ok (0, true, n + 1)) :
    (∃ w, parse_scaling_fixed s rw rh m M = .ok ((1, 1), w)) ∨
      parse_scaling_fixed s rw rh m M = .error .overflowError := by
  unfold parse_scaling_fixed
  by_cases hcond : 0 < pyFind 'x' s ∧ 0 < pyFind ':' s
  · exact .inl ⟨1, by rw [if_pos hcond]⟩
  · rw [if_neg hcond]
    obtain ⟨c, hmem, n, hc⟩ := hfail
    rcases pySplit1c_shape 'x' (pyReplace ',' 'x' s) with ⟨a, ha⟩ | ⟨a, b, hab⟩
    · rw [ha] at hmem
      have hca : c = a := by simpa using hmem
      subst hca
      rw [ha]
      exact .inl ⟨n + 1, by simp [hc]⟩
    · rw [hab] at hmem
      have hcc : c = a ∨ c = b := by simpa using hmem
      rw [hab]
      rcases hcc with rfl | rfl
      · exact .inl ⟨n + 1, by simp [hc]⟩
      · rcases parse_item_cases a with h | ⟨q, xi, h⟩
        · exact .inl ⟨1, by simp [h]⟩
        · by_cases hq : q = 0
          · exact .inl ⟨0, by simp [h, hq]⟩
          · rcases finishScaling_zero_sy q xi (0 + (n + 1)) rw rh m M hm hw hh
              with hfin | hfin
            · refine .inl ⟨n + 2, ?_⟩
              simp only [h, if_neg hq, List.headD_cons, List.getElem?_cons_succ,
                List.getElem?_cons_zero, hc]
              rw [hfin]
              norm_num
            · refine .inr ?_
              simp only [h, if_neg hq, List.headD_cons, List.getElem?_cons_succ,
                List.getElem?_cons_zero, hc]
              exact hfin

theorem parse_scaling_fixed_conflict (s : List Char) (rw rh : Int) (m M : ℚ)
    (hx : 'x' ∈ s) (hcol : ':' ∈ s) :
    parse_scaling_fixed s rw rh m M = .ok ((1, 1), 1) := by
  unfold parse_scaling_fixed
  by_cases hcond : 0 < pyFind 'x' s ∧ 0 < pyFind ':' s
  · rw [if_pos hcond]
  · rw [if_neg hcond]
    by_cases hA : 0 < pyFind 'x' s
    · have hB : ¬0 < pyFind ':' s := fun hb => hcond ⟨hA, hb⟩
      obtain ⟨t, rfl⟩ := pyFind_head ':' s hcol hB
      obtain ⟨h0, t0, hrec, hsplit⟩ :=
        pySplit1c_cons_of_ne 'x' ':' (pyReplace ',' 'x' t) (by decide)
      have hrepl : pyReplace ',' 'x' (':' :: t) = ':' :: pyReplace ',' 'x' t := rfl
      rw [hrepl, hsplit]
      simp [parse_item_head_colon (':' :: h0) rfl]
    · obtain ⟨t, rfl⟩ := pyFind_head 'x' s hx hA
      rfl

/-! ### Claim theorems -/

/-- C1 (counterexample): `parse_scaling` CAN raise.  With `root_w = 0`,
the spec string `"999"` parses to `999 > max_scaling = 8`, so the code
normalizes by `sx /= root_w` and raises `ZeroDivisionError`, refuting
"for every string spec and every integer root_w, root_h ... the call
returns normally". -/
theorem parse_scaling_zero_root_raises :
    parse_scaling "999" 0 100 (1/10) 8 = .error .zeroDivisionError := rfl

/-- C1 (amended): with `root_w ≠ 0` and `root_h ≠ 0`, the only exception
`parse_scaling` can raise is `OverflowError` from the absolute-pixel
normalization `sx /= root_w; sy /= root_h` (an int value above
`max_scaling` whose quotient reaches the float range, or a float value
divided by a root dimension too large to convert to float): the call
returns normally or raises that `OverflowError`, and no parse error from
malformed input ever propagates.  Moreover on the fixed-value path
(non-truthy, non-auto), whenever some component fails to parse (its
`parse_item` falls through to the warning and yields the int 0), with
`min_scaling > 0` the result is the safe fallback `(1.0, 1.0)` — unless
the other component's value overflows that same normalization. -/
theorem parse_scaling_never_raises_on_nonzero_roots (spec : String) (rw rh : Int)
    (m M : ℚ) (hw : rw ≠ 0) (hh : rh ≠ 0) :
    ((parse_scaling spec rw rh m M).isOk ∨
      parse_scaling spec rw rh m M = .error .overflowError) ∧
    (0 < m → spec.data ∉ TRUE_OPTIONS → lcStartsWith spec.data autoL = false →
      (∃ c ∈ pySplit1c 'x' (pyReplace ',' 'x' spec.data),
        ∃ n, parse_item c = .ok (0, true, n + 1)) →
      (∃ w, parse_scaling spec rw rh m M = .ok ((1, 1), w)) ∨
        parse_scaling spec rw rh m M = .error .overflowError) := by
  constructor
  · unfold parse_scaling parse_scalingL
    by_cases h1 : spec.data ∈ TRUE_OPTIONS
    · rw [if_pos h1]; exact .inl rfl
    · rw [if_neg h1]
      by_cases h2 : lcStartsWith spec.data autoL = true
      · rw [if_pos h2]; exact .inl rfl
      · rw [if_neg h2]
        exact parse_scaling_fixed_ok_or_overflow spec.data rw rh m M hw hh
  · intro hm h1 h2 hfail
    unfold parse_scaling
    rw [parse_scalingL_fixed_branch spec.data rw rh m M h1 h2]
    exact parse_scaling_fixed_fallback spec.data rw rh m M hm hw hh hfail

/-- C1 (witness): the amended theorem applied to the malformed spec
`"qq"` with nonzero roots and positive `min_scaling`. -/
theorem parse_scaling_never_raises_witness :
    ((parse_scaling "qq" 100 100 (1/10) 8).isOk ∨
      parse_scaling "qq" 100 100 (1/10) 8 = .error .overflowError) ∧
    ((∃ w, parse_scaling "qq" 100 100 (1/10) 8 = .ok ((1, 1), w)) ∨
      parse_scaling "qq" 100 100 (1/10) 8 = .error .overflowError) := by
  have h := parse_scaling_never_raises_on_nonzero_roots "qq" 100 100 (1/10) 8
    (by decide) (by decide)
  exact ⟨h.1, h.2 (by norm_num) (by decide) (by decide)
    ⟨"qq".data, by decide, 0, by rfl⟩⟩

set_option maxRecDepth 8000 in
/-- The normalization `OverflowError` is a live path of the model: on
`"1"` followed by 400 zeros (with nonzero roots), `parse_item` yields
the Python int `10^400`, which exceeds `max_scaling = 8`, and
`int.__truediv__` of `10^400 / 100` overflows the float range. -/
theorem parse_scaling_overflow_on_huge_int :
    parse_scaling ⟨'1' :: List.replicate 400 '0'⟩ 100 100 (1/10) 8 =
      .error .overflowError := by
  have hnm : ∀ c : Char, c ≠ '1' → c ≠ '0' →
      c ∉ ('1' :: List.replicate 400 '0' : List Char) := by
    intro c h1 h0 hmem
    rcases List.mem_cons.mp hmem with h | h
    · exact h1 h
    · exact h0 (List.eq_of_mem_replicate h)
  have hs : ('1' :: List.replicate 400 '0' : List Char) ∉ TRUE_OPTIONS := by decide
  have ha : lcStartsWith ('1' :: List.replicate 400 '0') autoL = false := by decide
  have hint : pyInt ('1' :: List.replicate 400 '0') =
      some (((10 : Nat) ^ 400 : Nat) : Int) := by
    show (digitsValAux (List.replicate 400 '0') (0 * 10 + digitVal '1')).map
      (fun n => (n : Int)) = some (((10 : Nat) ^ 400 : Nat) : Int)
    rw [digitsValAux_zeros]
    have h1 : (0 * 10 + digitVal '1') * 10 ^ 400 = 10 ^ 400 := by
      have hd : digitVal '1' = 1 := by decide
      rw [hd]
      ring
    rw [h1]
    rfl
  have hitem : parse_item ('1' :: List.replicate 400 '0') =
      .ok (((((10 : Nat) ^ 400 : Nat) : Int) : ℚ), true, 0) := by
    have hpc : pyEndsWith '%' ('1' :: List.replicate 400 '0') = false :=
      pyEndsWith_false_of_not_mem '%' _ (hnm '%' (by decide) (by decide))
    unfold parse_item
    rw [if_neg (fun hcontra => Bool.false_ne_true (hpc ▸ hcontra)), hint]
    rfl
  have hval : pySplit1c 'x' (pyReplace ',' 'x' ('1' :: List.replicate 400 '0')) =
      ['1' :: List.replicate 400 '0'] := by
    rw [pyReplace_not_mem ',' 'x' _ (hnm ',' (by decide) (by decide))]
    exact pySplit1c_not_mem 'x' _ (hnm 'x' (by decide) (by decide))
  have hfindx : pyFind 'x' ('1' :: List.replicate 400 '0') = -1 := by
    unfold pyFind
    rw [pyFindAux_not_mem 'x' _ (hnm 'x' (by decide) (by decide))]
  have hcond : ¬(0 < pyFind 'x' ('1' :: List.replicate 400 '0') ∧
      0 < pyFind ':' ('1' :: List.replicate 400 '0')) := by
    intro hcontra
    rw [hfindx] at hcontra
    exact absurd hcontra.1 (by norm_num)
  have hcast : ((((10 : Nat) ^ 400 : Nat) : Int) : ℚ) = (10 : ℚ) ^ 400 := by
    rw [Int.cast_natCast, Nat.cast_pow, Nat.cast_ofNat]
  have hgt : ((((10 : Nat) ^ 400 : Nat) : Int) : ℚ) > 8 := by
    rw [hcast]
    calc (8 : ℚ) < 10 ^ 1 := by norm_num
    _ ≤ 10 ^ 400 := pow_le_pow_right₀ (by norm_num) (by norm_num)
  have hq : ((((10 : Nat) ^ 400 : Nat) : Int) : ℚ) / ((100 : Int) : ℚ) =
      (10 : ℚ) ^ 398 := by
    rw [hcast]
    have h400 : (10 : ℚ) ^ 400 = 10 ^ 398 * 100 := by
      rw [show (400 : Nat) = 398 + 2 by norm_num, pow_add]
      congr 1
    rw [h400]
    push_cast
    rw [mul_div_assoc]
    norm_num
  have hov : ovfl ≤ |((((10 : Nat) ^ 400 : Nat) : Int) : ℚ) / ((100 : Int) : ℚ)| := by
    rw [hq, abs_of_nonneg (by positivity)]
    calc ovfl ≤ (2 : ℚ) ^ 1024 := by
          unfold ovfl
          exact sub_le_self _ (by positivity)
    _ ≤ (2 : ℚ) ^ 1194 := pow_le_pow_right₀ (by norm_num) (by norm_num)
    _ = ((2 : ℚ) ^ 3) ^ 398 := by rw [← pow_mul]
    _ ≤ (10 : ℚ) ^ 398 := pow_le_pow_left₀ (by norm_num) (by norm_num) 398
  show parse_scalingL ('1' :: List.replicate 400 '0') 100 100 (1/10) 8 =
    .error .overflowError
  rw [parse_scalingL_fixed_branch _ _ _ _ _ hs ha]
  unfold parse_scaling_fixed
  rw [if_neg hcond, hval]
  simp only [List.headD_cons, hitem, List.getElem?_cons_succ, List.getElem?_nil]
  rw [if_neg (ne_of_gt (lt_trans (by norm_num) hgt))]
  unfold finishScaling
  rw [if_pos (Or.inl hgt)]
  unfold pyDivNum
  rw [if_neg (by decide : ¬(100 : Int) = 0), if_pos rfl, if_pos hov]

/-- C2 (code bug, failing input `"50%"`): the `%` branch of
`parse_scaling_value` computes `float(v[:1]).as_integer_ratio()` — the
float of the FIRST CHARACTER only, never dividing by 100 — so
`parse_scaling_value("50%")` returns `(5, 1)`, not the claimed `(1, 2)`;
the spec itself (section 9) flags the `v[:1]` slice as a latent defect
of the source. -/
theorem parse_scaling_value_percent_uses_first_char :
    parse_scaling_value "50%" = .ok (some (5, 1)) := rfl

/-- C3: in auto mode `parse_scaling` returns the scales of the first row
of the limit table, in table order without sorting, whose
`max_width*max_height >= root_w*root_h` (`firstLimitMatch`, stated via
`List.find?`), and `(1.0, 1.0)` when no row matches. -/
theorem parse_scaling_auto_first_match (spec : String) (rw rh : Int) (m M : ℚ)
    (h : lcStartsWith spec.data autoL = true) :
    parse_scaling spec rw rh m M =
      .ok (firstLimitMatch (autoLimitsL spec.data).1 rw rh,
        (autoLimitsL spec.data).2) := by
  unfold parse_scaling parse_scalingL
  rw [if_neg (not_mem_TRUE_OPTIONS_of_auto spec.data h), if_pos h,
    selectLimits_eq_firstMatch]

/-- C3 (witness): the theorem applied to a custom `"auto:"` table. -/
theorem parse_scaling_auto_first_match_witness :
    parse_scaling "auto:10x10:2" 5 5 1 8 = .ok ((2, 2), 0) := by
  rw [parse_scaling_auto_first_match "auto:10x10:2" 5 5 1 8 (by decide)]
  rfl

/-- C4 (counterexample): `parse_scaling("auto", 8000, 4300, ...)`
returns `(1.5, 1.5)`, not the claimed `(1.25, 1.25)`:
`8000*4300 = 34400000` exceeds `7680*4320 = 33177600`, so the `1.25` row
does not match and the `8192x8192 -> 1.5` row is the first match. -/
theorem parse_scaling_auto_8000x4300_not_125 :
    parse_scaling "auto" 8000 4300 (1/10) 8 = .ok ((3/2, 3/2), 0) ∧
      (3/2 : ℚ) ≠ 5/4 := ⟨rfl, by norm_num⟩

/-- C4 (amended): with the default auto-mode limit table,
`parse_scaling("auto", 3840, 2160, ...)` returns `(1.0, 1.0)` and
`parse_scaling("auto", 8000, 4300, ...)` returns `(1.5, 1.5)` (the
area `8000*4300` falls past the `7680x4320` row into the `8192x8192`
row), for every `min_scaling`, `max_scaling`. -/
theorem parse_scaling_auto_examples (m M : ℚ) :
    parse_scaling "auto" 3840 2160 m M = .ok ((1, 1), 0) ∧
    parse_scaling "auto" 8000 4300 m M = .ok ((3/2, 3/2), 0) := ⟨rfl, rfl⟩

/-- C5 (code bug, failing input `parse_scaling("1xq", 100, 100, 0, 8)`):
when the SECOND component fails to parse, `parse_item` returns `0` (it
never returns `None`), so the source's `if sy is None` guard is dead
code and the pair `(1, 0)` — the bad spec partially applied — escapes
whenever `min_scaling <= 0` lets `sy = 0` through the range check;
the claimed result is `(1, 1)`. -/
theorem parse_scaling_second_component_failure_leaks :
    parse_scaling "1xq" 100 100 0 8 = .ok ((1, 0), 1) := rfl

/-- C6 (counterexample): a token ending in `"%"` bypasses the
positivity/upscale assertions: `parse_scaling_value("9%")` silently
returns the upscaling ratio `(9, 1)` (numerator > denominator) instead
of failing, refuting "for EVERY non-empty token it fails ... whenever
the ratio would upscale". -/
theorem parse_scaling_value_percent_upscale_unchecked :
    parse_scaling_value "9%" = .ok (some (9, 1)) ∧ (1 : Int) < 9 :=
  ⟨rfl, by norm_num⟩

/-- C6 (amended): `parse_scaling_value` returns `None` for empty input;
for every non-empty token NOT ending in `"%"` whose components parse as
integers `ints`, it fails with an explicit error whenever some parsed
integer is `<= 0` or the two-component ratio would upscale; a single
component `N > 0` yields `(1, N)` and two components `0 < A <= B` yield
`(A, B)` unchanged.  (Tokens ending in `"%"` bypass these checks.) -/
theorem parse_scaling_value_ratio_checks :
    parse_scaling_value "" = .ok none ∧
    ∀ (v : String) (ints : List Int),
      v.data ≠ [] → pyEndsWith '%' v.data = false →
      listPyInt (pySplit1c ':' (pyReplace ',' ':' (pyReplace '/' ':' v.data))) =
        some ints →
      ((∃ x ∈ ints, x ≤ 0) → ∃ e, parse_scaling_value v = .error e) ∧
      (∀ a b, ints = [a, b] → b < a → ∃ e, parse_scaling_value v = .error e) ∧
      (∀ n, ints = [n] → 0 < n → parse_scaling_value v = .ok (some (1, n))) ∧
      (∀ a b, ints = [a, b] → 0 < a → a ≤ b →
        parse_scaling_value v = .ok (some (a, b))) := by
  constructor
  · rfl
  · intro v ints h1 h2 h3
    unfold parse_scaling_value parse_scaling_valueL
    rw [if_neg h1, if_neg (by simp [h2]), h3]
    refine ⟨?_, ?_, ?_, ?_⟩
    · rintro ⟨x, hx, hle⟩
      have hany : ints.any (fun x => decide (x ≤ 0)) = true :=
        List.any_eq_true.mpr ⟨x, hx, decide_eq_true hle⟩
      exact ⟨.assertionError, by simp [hany]⟩
    · rintro a b rfl hba
      have hnab : ¬a ≤ b := not_le.mpr hba
      by_cases hany : ([a, b].any (fun x => decide (x ≤ 0))) = true
      · exact ⟨.assertionError, by simp [hany]⟩
      · exact ⟨.assertionError, by simp [hany, hnab]⟩
    · rintro n rfl hn
      have hany : ([n].any (fun x => decide (x ≤ 0))) = false := by
        simp [not_le.mpr hn]
      simp [hany]
    · rintro a b rfl ha hab
      have hb : (0 : Int) < b := lt_of_lt_of_le ha hab
      have hany : ([a, b].any (fun x => decide (x ≤ 0))) = false := by
        simp [not_le.mpr ha, not_le.mpr hb]
      simp [hany, hab]

/-- C6 (witness): the amended theorem applied to the token `"2:3"`. -/
theorem parse_scaling_value_ratio_checks_witness :
    parse_scaling_value "2:3" = .ok (some (2, 3)) :=
  (parse_scaling_value_ratio_checks.2 "2:3" [2, 3] (by decide) (by decide)
    (by decide)).2.2.2 2 3 rfl (by decide) (by decide)

/-- C7: for every fixed-value (non-truthy, non-auto) spec string
containing both an `x` and a `:`, `parse_scaling` warns and returns
`(1, 1)` — through the conflicting-separator warning when both sit at
positive indices, and through the first component parsing to 0 when one
of them is the leading character. -/
theorem parse_scaling_conflicting_separators (spec : String) (rw rh : Int)
    (m M : ℚ) (h1 : spec.data ∉ TRUE_OPTIONS)
    (h2 : lcStartsWith spec.data autoL = false)
    (hx : 'x' ∈ spec.data) (hcol : ':' ∈ spec.data) :
    parse_scaling spec rw rh m M = .ok ((1, 1), 1) := by
  unfold parse_scaling
  rw [parse_scalingL_fixed_branch spec.data rw rh m M h1 h2]
  exact parse_scaling_fixed_conflict spec.data rw rh m M hx hcol

/-- C7 (witness): the theorem applied to the spec's own example
`"axb:2"`. -/
theorem parse_scaling_conflicting_separators_witness :
    parse_scaling "axb:2" 100 100 (1/10) 8 = .ok ((1, 1), 1) :=
  parse_scaling_conflicting_separators "axb:2" 100 100 (1/10) 8 (by decide)
    (by decide) (by decide) (by decide)

/-- C8: `parse_simple_dict` is total (the `except Exception` handler
makes every entry fallible operation caught); repeated keys accumulate
in input order (`"a=1,b=2,a=3"`); a malformed entry is skipped with one
warning while parsing continues (`"bad,a=1"`, and generally any
separator-free entry without `"="`); splitting is on the first `"="`
only, so values may contain `"="`. -/
theorem parse_simple_dict_spec :
    parse_simple_dict "a=1,b=2,a=3" ',' =
      ([("a".data, .list ["1".data, "3".data]), ("b".data, .str "2".data)], 0) ∧
    parse_simple_dict "bad,a=1" ',' = ([("a".data, .str "1".data)], 1) ∧
    (∀ el : List Char, el ≠ [] → '=' ∉ el → ',' ∉ el →
      parse_simple_dictL el ',' = ([], 1)) ∧
    ∀ k v : List Char, '=' ∉ k → pySplit1c '=' (k ++ '=' :: v) = [k, v] := by
  refine ⟨by decide, by decide, ?_, ?_⟩
  · intro el h1 h2 h3
    unfold parse_simple_dictL
    rw [pySplitc_not_mem ',' el h3]
    simp only [List.foldl]
    unfold parse_simple_dictEntry
    rw [if_neg h1, pySplit1c_not_mem '=' el h2]
  · intro k v h
    exact pySplit1c_first '=' k v h

/-- C8 (witness): the general conjuncts applied to the entry `"bad"`
and to the key/value pair `("a", "1")`. -/
theorem parse_simple_dict_spec_witness :
    parse_simple_dictL "bad".data ',' = ([], 1) ∧
    pySplit1c '=' ("a".data ++ '=' :: "1".data) = ["a".data, "1".data] :=
  ⟨parse_simple_dict_spec.2.2.1 "bad".data (by decide) (by decide) (by decide),
   parse_simple_dict_spec.2.2.2 "a".data "1".data (by decide)⟩

/-- C9: on the truthy and auto branches the result of `parse_scaling`
does not depend on `min_scaling`/`max_scaling` (two calls differing only
in the bounds agree), and an auto table value above `max_scaling` is
returned unchanged (the default `4.0` row with `max_scaling = 2`,
among others, via the second conjunct's arbitrary bounds). -/
theorem parse_scaling_bounds_independent :
    (∀ (spec : String) (rw rh : Int) (m1 M1 m2 M2 : ℚ),
      spec.data ∈ TRUE_OPTIONS ∨ lcStartsWith spec.data autoL = true →
      parse_scaling spec rw rh m1 M1 = parse_scaling spec rw rh m2 M2) ∧
    ∀ m M : ℚ, parse_scaling "auto" 40000 40000 m M = .ok ((4, 4), 0) := by
  constructor
  · intro spec rw rh m1 M1 m2 M2 h
    unfold parse_scaling parse_scalingL
    rcases h with h | h
    · rw [if_pos h, if_pos h]
    · rw [if_neg (not_mem_TRUE_OPTIONS_of_auto spec.data h),
        if_neg (not_mem_TRUE_OPTIONS_of_auto spec.data h), if_pos h, if_pos h]
  · intro m M; rfl

/-- C9 (witness): the first conjunct applied to the truthy spec
`"yes"` with two different bound pairs. -/
theorem parse_scaling_bounds_independent_witness :
    parse_scaling "yes" 640 480 (1/10) 8 = parse_scaling "yes" 640 480 1 2 :=
  parse_scaling_bounds_independent.1 "yes" 640 480 (1/10) 8 1 2 (.inl (by decide))

/-- C10: whenever `parse_scaling_value` succeeds with a pair `(a, b)` on
a non-empty token not ending in `"%"`, then `0 < a ≤ b`: every
successful non-percentage result is a downscale-or-identity ratio. -/
theorem parse_scaling_value_downscale_invariant (v : String) (a b : Int)
    (h1 : v.data ≠ []) (h2 : pyEndsWith '%' v.data = false)
    (h3 : parse_scaling_value v = .ok (some (a, b))) : 0 < a ∧ a ≤ b := by
  unfold parse_scaling_value parse_scaling_valueL at h3
  rw [if_neg h1, if_neg (by simp [h2])] at h3
  cases hl : listPyInt (pySplit1c ':' (pyReplace ',' ':' (pyReplace '/' ':' v.data))) with
  | none => rw [hl] at h3; simp at h3
  | some ints =>
    rw [hl] at h3
    by_cases hany : ints.any (fun x => decide (x ≤ 0)) = true
    · simp [hany] at h3
    · have hall : ∀ x ∈ ints, 0 < x := by
        intro x hx
        by_contra hle
        exact hany (List.any_eq_true.mpr ⟨x, hx, decide_eq_true (not_lt.mp hle)⟩)
      cases ints with
      | nil => simp [hany] at h3
      | cons a' t =>
        cases t with
        | nil =>
          simp [hany] at h3
          obtain ⟨rfl, rfl⟩ := h3
          have := hall a' (by simp)
          exact ⟨one_pos, by omega⟩
        | cons b' t' =>
          by_cases hab : a' ≤ b'
          · simp [hany, hab] at h3
            obtain ⟨rfl, rfl⟩ := h3
            exact ⟨hall a' (by simp), hab⟩
          · simp [hany, hab] at h3

/-- C10 (witness): the invariant applied to the token `"2:4"`. -/
theorem parse_scaling_value_downscale_invariant_witness :
    (0 : Int) < 2 ∧ (2 : Int) ≤ 4 :=
  parse_scaling_value_downscale_invariant "2:4" 2 4 (by decide) (by decide) rfl

end XpraParsing
